import Mathlib

/-!
Verification of the dataset-reorganisation tool (`src/main.go`).

Paths and record fields are modelled as `List Char`. Go's `strings.ToLower`
is modelled by mapping `Char.toLower` over the characters (the keywords and
realistic paths are ASCII, where the two functions agree); `strings.Contains`
is substring containment, implemented below.
-/

/-- Convert a string literal to the character-list representation used
throughout this development. -/
def lstr (s : String) : List Char := s.data

/-- Model of Go `strings.ToLower` (ASCII fragment). -/
def goToLower (s : List Char) : List Char := s.map Char.toLower

/-- `goHasPfx s t` is true when `t` is a leading segment of `s`. -/
def goHasPfx : List Char → List Char → Bool
  | _, [] => true
  | [], _ :: _ => false
  | c :: cs, d :: ds => c = d && goHasPfx cs ds

/-- Model of Go `strings.Contains s sub`: `sub` occurs as a contiguous
substring of `s`. -/
def goContains : List Char → List Char → Bool
  | [], sub => goHasPfx [] sub
  | c :: cs, sub => goHasPfx (c :: cs) sub || goContains cs sub

/-- Class constant `GUN` from the source. -/
def GUN : List Char := lstr "gun"

/-- Class constant `KNIFE` from the source. -/
def KNIFE : List Char := lstr "knife"

/-- Class constant `WRENCH` from the source. -/
def WRENCH : List Char := lstr "wrench"

/-- Class constant `FORK` from the source. -/
def FORK : List Char := lstr "fork"

/-- Class constant `SCREWDRIVER` from the source. -/
def SCREWDRIVER : List Char := lstr "screwdriver"

/-- Class constant `UNKNOWN` from the source. -/
def UNKNOWN : List Char := lstr "unknown"

/-- Identifier of one of the package-level counter variables; Go's
`getClassFromPath` returns a pointer to the counter, modelled as this tag. -/
inductive CounterId where
  | gun | knife | wrench | fork | screwdriver | unknown
  deriving DecidableEq, Repr

/-- Model of `getIndexFromPath` (src/main.go lines 96-117): lower-case the
path, then test keyword containment in the order gun, knife, wrench, fork,
screwdriver, returning the fixed index constants `gunIndex = 2`,
`knifeIndex = 0`, `wrenchIndex = 3`, `forkIndex = 1`,
`screwdriverIndex = 4`, and `-1` when nothing matches. -/
def getIndexFromPath (path : List Char) : Int :=
  let p := goToLower path
  if goContains p GUN then 2
  else if goContains p KNIFE then 0
  else if goContains p WRENCH then 3
  else if goContains p FORK then 1
  else if goContains p SCREWDRIVER then 4
  else -1

/-- Model of `getClassFromPath` (src/main.go lines 119-140): lower-case the
path, then test keyword containment in the order gun, knife, wrench, fork,
screwdriver, returning the class string and (a tag standing for the pointer
to) its counter variable; unknown when nothing matches. -/
def getClassFromPath (path : List Char) : List Char × CounterId :=
  let p := goToLower path
  if goContains p GUN then (GUN, .gun)
  else if goContains p KNIFE then (KNIFE, .knife)
  else if goContains p WRENCH then (WRENCH, .wrench)
  else if goContains p FORK then (FORK, .fork)
  else if goContains p SCREWDRIVER then (SCREWDRIVER, .screwdriver)
  else (UNKNOWN, .unknown)

/-- The fixed class-index table (src/main.go lines 70-76): knife 0, fork 1,
gun 2, wrench 3, screwdriver 4, anything else -1. -/
def classIndexTable (c : List Char) : Int :=
  if c = KNIFE then 0
  else if c = FORK then 1
  else if c = GUN then 2
  else if c = WRENCH then 3
  else if c = SCREWDRIVER then 4
  else -1

/-- The character for a decimal digit below ten. -/
def digitChar (d : Nat) : Char :=
  if d = 0 then '0' else if d = 1 then '1' else if d = 2 then '2'
  else if d = 3 then '3' else if d = 4 then '4' else if d = 5 then '5'
  else if d = 6 then '6' else if d = 7 then '7' else if d = 8 then '8' else '9'

/-- Fuel-driven digit emitter for `natChars`; the fuel is an upper bound on
the number, so the base case is never the final answer in actual use. -/
def natCharsGo : Nat → Nat → List Char → List Char
  | 0, _, acc => acc
  | fuel + 1, n, acc =>
      if n < 10 then digitChar n :: acc
      else natCharsGo fuel (n / 10) (digitChar (n % 10) :: acc)

/-- Model of Go `strconv.Itoa` on a natural number. -/
def natChars (n : Nat) : List Char := natCharsGo (n + 1) n []

/-- Model of Go `strconv.Itoa` on an integer. -/
def intChars (i : Int) : List Char :=
  if i < 0 then '-' :: natChars i.natAbs else natChars i.natAbs

/-- Exact fraction (numerator, denominator), not normalized. Models the
float64 values of the yolo branch exactly: every quantity there is a ratio
of integers, and at the magnitudes involved the float64 rounding error is
far below the six-decimal output granularity, so exact arithmetic yields
the same formatted strings. -/
structure Frac where
  num : Int
  den : Int
  deriving Repr, DecidableEq

/-- Product of two fractions. -/
def Frac.mul (a b : Frac) : Frac := ⟨a.num * b.num, a.den * b.den⟩

/-- Subtract one from a fraction: models the `- 1` in the yolo center
coordinates. -/
def fracSub1 (f : Frac) : Frac := ⟨f.num - f.den, f.den⟩

/-- Halve an integer as a fraction: models `float64(a) / 2.0`. -/
def fracHalf (a : Int) : Frac := ⟨a, 2⟩

/-- Round a nonnegative scaled ratio to the nearest integer (half away from
zero): the value `(n / d) * 10^6 + 1/2`, floored. -/
def roundScaled (n d : Nat) : Nat := (2 * n * 1000000 + d) / (2 * d)

/-- Digits of a nonnegative six-decimal fixed-point value `k / 10^6`. -/
def fmtNat (k : Nat) : List Char :=
  natChars (k / 1000000) ++
    '.' :: (List.replicate (6 - (natChars (k % 1000000)).length) '0' ++
      natChars (k % 1000000))

/-- Model of Go `fmt.Sprintf` with verb `%f` (six digits after the decimal
point) applied to the exact value of a fraction. -/
def fmtF (f : Frac) : List Char :=
  let n : Int := if f.den < 0 then -f.num else f.num
  let d : Nat := f.den.natAbs
  if n < 0 then '-' :: fmtNat (roundScaled n.natAbs d)
  else fmtNat (roundScaled n.natAbs d)

/-- The single yolo label line assembled in the yolo branch of
`scanAllLabelled` (src/main.go lines 268-280): class index, then the four
normalized box fields x, y, w, h, space-separated, each formatted with
six digits after the decimal point. -/
def yoloLine (classIndex xMin yMin xMax yMax width height : Int) : List Char :=
  let dw : Frac := ⟨1, width⟩
  let dh : Frac := ⟨1, height⟩
  let x := fracSub1 (fracHalf (xMin + xMax))
  let y := fracSub1 (fracHalf (yMin + yMax))
  let w : Frac := ⟨xMax - xMin, 1⟩
  let h : Frac := ⟨yMax - yMin, 1⟩
  intChars classIndex ++
    (lstr " " ++ fmtF (x.mul dw) ++ lstr " " ++ fmtF (y.mul dh) ++
      lstr " " ++ fmtF (w.mul dw) ++ lstr " " ++ fmtF (h.mul dh))

/-- One entry produced by the filesystem walk (`filepath.WalkDir`): the
path handed to the callback, whether it is a directory, and its base name
(`d.Name()`). -/
structure WalkEntry where
  path : List Char
  isDir : Bool
  name : List Char
  deriving Repr, DecidableEq

/-- Model of Go `strings.ReplaceAll p "\\" "/"`. -/
def slashify (p : List Char) : List Char :=
  p.map fun c => if c = '\\' then '/' else c

/-- Model of Go `filepath.Base` (unix separators): empty path gives ".",
trailing separators are stripped, everything up to the last separator is
dropped, and an all-separator path gives "/". -/
def goBase (p : List Char) : List Char :=
  if p = [] then lstr "."
  else
    let q := (p.reverse.dropWhile fun c => c = '/').reverse
    let r := (q.reverse.takeWhile fun c => c ≠ '/').reverse
    if r = [] then lstr "/" else r

/-- The walker closure of `findCorrespondingFile` (src/main.go lines
317-322) run over a list of walk entries: `found` is overwritten by the
path of every non-directory entry whose name equals the base name. -/
def walkFind (baseName : List Char) : List Char → List WalkEntry → List Char
  | found, [] => found
  | found, e :: es =>
      walkFind baseName (if !e.isDir && e.name = baseName then e.path else found) es

/-- Model of `findCorrespondingFile` (src/main.go lines 312-331): normalize
separators, take the base name, walk the primary image root, and walk the
fallback root only when the first walk left `found` empty. -/
def findCorrespondingFile (primary secondary : List WalkEntry) (p : List Char) :
    List Char :=
  let baseName := goBase (slashify p)
  let found := walkFind baseName [] primary
  if found.length = 0 then walkFind baseName [] secondary else found

/-- The path of the last matching entry of a walk, if any: what the
overwrite-style walker actually keeps. -/
def lastMatchPath (baseName : List Char) (es : List WalkEntry) : Option (List Char) :=
  ((es.filter fun e => !e.isDir && e.name = baseName).map WalkEntry.path).getLast?

/-- The bounding-box sub-record of the annotation XML format. -/
structure Bndbox where
  text : List Char
  xmin : List Char
  ymin : List Char
  xmax : List Char
  ymax : List Char
  deriving Repr, DecidableEq

/-- The size sub-record of the annotation XML format. -/
structure SizeRec where
  text : List Char
  width : List Char
  height : List Char
  depth : List Char
  deriving Repr, DecidableEq

/-- The source sub-record of the annotation XML format. -/
structure SourceRec where
  text : List Char
  database : List Char
  deriving Repr, DecidableEq

/-- The object sub-record of the annotation XML format. -/
structure ObjectRec where
  text : List Char
  name : List Char
  pose : List Char
  truncated : List Char
  difficult : List Char
  bndbox : Bndbox
  deriving Repr, DecidableEq

/-- The in-memory annotation record (`labelledXML`, src/main.go lines
19-50). All leaf values are text, as in the XML tags. -/
structure LabelledXML where
  text : List Char
  folder : List Char
  filename : List Char
  path : List Char
  source : SourceRec
  size : SizeRec
  segmented : List Char
  object : ObjectRec
  deriving Repr, DecidableEq

/-- The zero value of `labelledXML`: what `xml.Decoder.Decode` leaves
behind when it decodes nothing (its error being discarded). -/
def emptyLabelledXML : LabelledXML :=
  ⟨[], [], [], [], ⟨[], []⟩, ⟨[], [], [], []⟩, [], ⟨[], [], [], [], [], ⟨[], [], [], [], []⟩⟩⟩

/-- What opening and decoding one annotation file yields: either the open
fails with an error, or it succeeds and the decoder leaves some record
(possibly the zero record, since the decode error is discarded). -/
inductive FileRead where
  | openFail (msg : List Char)
  | content (data : LabelledXML)
  deriving Repr, DecidableEq

/-- Model of `readLabelled` (src/main.go lines 300-310): a nil pointer is
returned together with the open error; otherwise the decoded record is
returned with a nil error — the `Decode` error is discarded, so the
record-pointer is non-nil whenever the error is nil. -/
def readLabelled : FileRead → Except (List Char) (Option LabelledXML)
  | .openFail m => .error m
  | .content data => .ok (some data)

/-- The error values the per-file callback of `scanAllLabelled` can return
(each Go error site gets its own constructor). -/
inductive AbortMsg where
  | openMsg (m : List Char)
  | cannotReadXML (path : List Char)
  | relErrMsg
  | marshalErrMsg
  | writeErrMsg
  | strconvErrMsg
  deriving Repr, DecidableEq

/-- The read-and-nil-check prefix of the `scanAllLabelled` callback
(src/main.go lines 199-206). -/
inductive ReadCheck where
  | abort (msg : AbortMsg)
  | proceed (data : LabelledXML)
  deriving Repr, DecidableEq

/-- The driver's handling of `readLabelled`'s two results (src/main.go
lines 199-206): a non-nil error is returned as is; a nil record yields the
"Cannot read XML" error; otherwise processing proceeds with the record. -/
def driverReadCheck (path : List Char) (fr : FileRead) : ReadCheck :=
  match readLabelled fr with
  | .error m => .abort (.openMsg m)
  | .ok none => .abort (.cannotReadXML path)
  | .ok (some data) => .proceed data

/-- The package-level mutable state: the per-class counters, the total
counter and the copied-image list (src/main.go lines 79-89). The Go
counters are `int`s that are only ever incremented from zero, so `Nat`
models them exactly. -/
structure St where
  gunCount : Nat
  knifeCount : Nat
  wrenchCount : Nat
  forkCount : Nat
  screwdriverCount : Nat
  unknownCount : Nat
  totalCount : Nat
  copiedImages : List (List Char)
  deriving Repr, DecidableEq

/-- The initial state: every counter zero, no copied images. -/
def St.init : St := ⟨0, 0, 0, 0, 0, 0, 0, []⟩

/-- Read the counter a `CounterId` points to. -/
def getCount (st : St) : CounterId → Nat
  | .gun => st.gunCount
  | .knife => st.knifeCount
  | .wrench => st.wrenchCount
  | .fork => st.forkCount
  | .screwdriver => st.screwdriverCount
  | .unknown => st.unknownCount

/-- Increment the counter a `CounterId` points to (`*classCount++`). -/
def incCount (st : St) : CounterId → St
  | .gun => { st with gunCount := st.gunCount + 1 }
  | .knife => { st with knifeCount := st.knifeCount + 1 }
  | .wrench => { st with wrenchCount := st.wrenchCount + 1 }
  | .fork => { st with forkCount := st.forkCount + 1 }
  | .screwdriver => { st with screwdriverCount := st.screwdriverCount + 1 }
  | .unknown => { st with unknownCount := st.unknownCount + 1 }

/-- The class string of a counter variable, for restating assignments. -/
def className : CounterId → List Char
  | .gun => GUN
  | .knife => KNIFE
  | .wrench => WRENCH
  | .fork => FORK
  | .screwdriver => SCREWDRIVER
  | .unknown => UNKNOWN

/-- How one call of `copy` (src/main.go lines 158-183) plays out in the
environment: one of the four early error returns, or the destination file
is created and the content copy runs (`io.Copy` may still report an
error, which every caller discards). -/
inductive CopyOutcome where
  | statErr
  | notRegular
  | openErr
  | createErr
  | copied (ioErr : Bool)
  deriving Repr, DecidableEq

/-- Model of `copy` (src/main.go lines 158-183) acting on the package
state: the four early returns leave the state unchanged; once the
destination is created, the source path is appended to `copiedImages`
whether or not `io.Copy` failed. The boolean reports whether the content
write took place. -/
def goCopy (out : CopyOutcome) (src : List Char) (st : St) : St × Bool :=
  match out with
  | .copied _ => ({ st with copiedImages := st.copiedImages ++ [src] }, true)
  | _ => (st, false)

/-- Worker for `goExt`: carries the extension candidate collected so far,
restarting it at every separator and at every dot. -/
def goExtGo : List Char → List Char → List Char
  | acc, [] => acc
  | acc, c :: cs =>
      if c = '/' then goExtGo [] cs
      else if c = '.' then goExtGo ['.'] cs
      else goExtGo (if acc = [] then [] else acc ++ [c]) cs

/-- Model of Go `filepath.Ext`: the suffix starting at the final dot of
the last path element, empty when that element has no dot. -/
def goExt (p : List Char) : List Char := goExtGo [] p

/-- Model of `createOutputDir` (src/main.go lines 185-189) as the path it
returns; the `MkdirAll` side effect carries no state the claims mention.
`filepath.Join` on the clean, separator-free directory names used here is
plain concatenation with a slash. -/
def createOutputDir (dir : List Char) : List Char := lstr "output/" ++ dir

/-- Model of `getOutputFileName` (src/main.go lines 191-193):
`output/(class)/(class)_(count)(ext)` where the extension is re-extracted
from the third argument by `filepath.Ext`. -/
def getOutputFileName (cls : List Char) (classCount : Nat) (path : List Char) :
    List Char :=
  createOutputDir cls ++ (lstr "/" ++ (cls ++ (lstr "_" ++
    (natChars classCount ++ goExt path))))

/-- Digit value of a character, if it is a decimal digit. -/
def digitVal (c : Char) : Option Nat :=
  if c.isDigit then some (c.toNat - 48) else none

/-- Value of a digit string under a running accumulator; `none` on the
first non-digit. -/
def digitsVal : Nat → List Char → Option Nat
  | a, [] => some a
  | a, c :: cs =>
      match digitVal c with
      | some d => digitsVal (10 * a + d) cs
      | none => none

/-- Model of Go `strconv.Atoi`: optional sign, at least one digit, nothing
else; on failure the returned value is 0 and the flag is false (the
64-bit range clamp of `Atoi` is not modelled; the inputs at stake are
small). -/
def goAtoi (s : List Char) : Int × Bool :=
  let core : List Char → Bool → Int × Bool := fun ds neg =>
    match ds, digitsVal 0 ds with
    | [], _ => (0, false)
    | _ :: _, some v => (if neg then -(v : Int) else (v : Int), true)
    | _ :: _, none => (0, false)
  match s with
  | '+' :: rest => core rest false
  | '-' :: rest => core rest true
  | _ => core s false

/-- The two-stage classification of `scanAllLabelled` (src/main.go lines
208-211): classify the annotation's own path, and when that is unknown,
retry on the image path recorded inside the annotation. -/
def classifyFallback (path recordedPath : List Char) : List Char × CounterId :=
  let cc := getClassFromPath path
  if cc.1 = UNKNOWN then getClassFromPath recordedPath else cc

/-- The two-stage index lookup of `scanAllLabelled` (src/main.go lines
213-216). -/
def indexFallback (path recordedPath : List Char) : Int :=
  let ci := getIndexFromPath path
  if ci = -1 then getIndexFromPath recordedPath else ci

/-- One per-class output-name assignment performed by a run: the class
string and counter variable it was charged to, the counter value used,
and the third argument handed to `getOutputFileName` for the image copy. -/
structure Assigned where
  cls : List Char
  cid : CounterId
  n : Nat
  extSrc : List Char
  deriving Repr, DecidableEq

/-- The environment one annotation file meets: its read outcome and the
success or failure of each later external call. -/
structure AnnEnv where
  read : FileRead
  relErr : Bool
  marshalErr : Bool
  writeErr : Bool
  copyOutcome : CopyOutcome
  deriving Repr, DecidableEq

/-- One file handed to the `scanAllLabelled` walk: its path, its base name
and its environment. -/
structure AnnEntry where
  path : List Char
  name : List Char
  env : AnnEnv
  deriving Repr, DecidableEq

/-- Accumulated observable effects of a run: the package state, the
per-class name assignments, the annotation/label files written, and the
image copies performed (source, destination). -/
structure RunAcc where
  st : St
  assigned : List Assigned
  xmlWrites : List (List Char)
  imgCopies : List (List Char × List Char)
  yoloOuts : List (Int × List Char)
  deriving Repr, DecidableEq

/-- The empty accumulator at process start. -/
def RunAcc.init : RunAcc := ⟨St.init, [], [], [], []⟩

/-- The annotation-rewrite branch of the `scanAllLabelled` callback
(src/main.go lines 222-251): compute both output names from the current
class counter, abort on a relative-path, marshal or annotation-write
error, otherwise copy the image (the copy error is discarded) and
increment the class counter. -/
def modeABranch (acc : RunAcc) (cc : List Char × CounterId)
    (foundImage path : List Char) (env : AnnEnv) : Except AbortMsg RunAcc :=
  let n := getCount acc.st cc.2
  let outputFile := getOutputFileName cc.1 n (goExt foundImage)
  let xmlOutFile := getOutputFileName cc.1 n (goExt path)
  if env.relErr then .error .relErrMsg
  else if env.marshalErr then .error .marshalErrMsg
  else if env.writeErr then .error .writeErrMsg
  else
    let cpy := goCopy env.copyOutcome foundImage acc.st
    .ok { st := incCount cpy.1 cc.2,
          assigned := acc.assigned ++ [⟨cc.1, cc.2, n, goExt foundImage⟩],
          xmlWrites := acc.xmlWrites ++ [xmlOutFile],
          imgCopies := acc.imgCopies ++
            (if cpy.2 then [(foundImage, outputFile)] else []),
          yoloOuts := acc.yoloOuts }

/-- The yolo branch of the `scanAllLabelled` callback (src/main.go lines
252-287): name both outputs by the total counter, parse the six geometry
fields (only the height parse error survives, the others are overwritten),
abort on that error or a label-write error, otherwise write the label
line, copy the image (copy error discarded) and bump the total counter. -/
def yoloBranch (acc : RunAcc) (classIndex : Int) (data : LabelledXML)
    (foundImage : List Char) (env : AnnEnv) : Except AbortMsg RunAcc :=
  let outputFile := createOutputDir (lstr "yolo") ++
    (lstr "/" ++ (natChars acc.st.totalCount ++ lstr ".jpg"))
  let outputYoloFile := createOutputDir (lstr "yolo") ++
    (lstr "/" ++ (natChars acc.st.totalCount ++ lstr ".txt"))
  let xMax := goAtoi data.object.bndbox.xmax
  let xMin := goAtoi data.object.bndbox.xmin
  let yMax := goAtoi data.object.bndbox.ymax
  let yMin := goAtoi data.object.bndbox.ymin
  let width := goAtoi data.size.width
  let height := goAtoi data.size.height
  if !height.2 then .error .strconvErrMsg
  else if env.writeErr then .error .writeErrMsg
  else
    let line := yoloLine classIndex xMin.1 yMin.1 xMax.1 yMax.1 width.1 height.1
    let cpy := goCopy env.copyOutcome foundImage acc.st
    .ok { st := { cpy.1 with totalCount := cpy.1.totalCount + 1 },
          assigned := acc.assigned,
          xmlWrites := acc.xmlWrites ++ [outputYoloFile],
          imgCopies := acc.imgCopies ++
            (if cpy.2 then [(foundImage, outputFile)] else []),
          yoloOuts := acc.yoloOuts ++ [(classIndex, line)] }

/-- The body of the `scanAllLabelled` callback (src/main.go lines 196-292)
for one walked file: skip non-xml names; read (aborting as the source
does); classify with fallback; resolve the image (the two walk lists are
the trees the resolver searches); skip silently when nothing resolves;
otherwise run the branch the `yolo` flag selects. -/
def annStep (yolo : Bool) (primary secondary : List WalkEntry) (acc : RunAcc)
    (e : AnnEntry) : Except AbortMsg RunAcc :=
  if goExt e.name = lstr ".xml" then
    match driverReadCheck e.path e.env.read with
    | .abort m => .error m
    | .proceed data =>
        if (findCorrespondingFile primary secondary data.path).length ≠ 0 then
          if !yolo then
            modeABranch acc (classifyFallback e.path data.path)
              (findCorrespondingFile primary secondary data.path) e.path e.env
          else
            yoloBranch acc (indexFallback e.path data.path) data
              (findCorrespondingFile primary secondary data.path) e.env
        else .ok acc
  else .ok acc

/-- The `scanAllLabelled` walk over its files: stop at the first returned
error (`filepath.WalkDir` aborts the walk, and `log.Fatal` then ends the
process). -/
def annRun (yolo : Bool) (primary secondary : List WalkEntry) :
    RunAcc → List AnnEntry → Except AbortMsg RunAcc
  | acc, [] => .ok acc
  | acc, e :: es =>
      match annStep yolo primary secondary acc e with
      | .error m => .error m
      | .ok acc2 => annRun yolo primary secondary acc2 es

/-- One file (or directory) handed to the `scanImages` walk, with the
outcome its `copy` call would meet. -/
structure SweepEntry where
  path : List Char
  copyOutcome : CopyOutcome
  deriving Repr, DecidableEq

/-- The body of the `scanImages` callback (src/main.go lines 142-156) for
one walked path: skip it when already copied, otherwise classify by path,
assign the next per-class output name, copy (error discarded) and bump
the class counter. -/
def sweepStep (acc : RunAcc) (e : SweepEntry) : RunAcc :=
  if e.path ∈ acc.st.copiedImages then acc
  else
    let cc := getClassFromPath e.path
    let n := getCount acc.st cc.2
    let outputFile := getOutputFileName cc.1 n (goExt e.path)
    let cpy := goCopy e.copyOutcome e.path acc.st
    { st := incCount cpy.1 cc.2,
      assigned := acc.assigned ++ [⟨cc.1, cc.2, n, goExt e.path⟩],
      xmlWrites := acc.xmlWrites,
      imgCopies := acc.imgCopies ++ (if cpy.2 then [(e.path, outputFile)] else []),
      yoloOuts := acc.yoloOuts }

/-- The `scanImages` walk over the primary image root. -/
def sweepRun : RunAcc → List SweepEntry → RunAcc := List.foldl sweepStep

/-- Projection of a step result onto its success value. -/
def stepOk : Except AbortMsg RunAcc → Option RunAcc
  | .ok acc => some acc
  | .error _ => none

/-- True when a step result is the "Cannot read XML" abort. -/
def abortsUnreadable : Except AbortMsg RunAcc → Bool
  | .error (.cannotReadXML _) => true
  | _ => false

/-- An annotation file that opens fine but whose decode yields the
all-empty record. -/
def emptyRecordEntry : AnnEntry :=
  ⟨lstr "dataset/a.xml", lstr "a.xml",
    ⟨.content emptyLabelledXML, false, false, false, .copied false⟩⟩

/-- The primary image tree for the concrete fixtures: one gun image. -/
def gunImageWalk : List WalkEntry :=
  [⟨lstr "dataset/images/gun1.jpg", false, lstr "gun1.jpg"⟩]

/-- An annotation record whose recorded image path points at the gun
image (with Windows separators, as in the dataset). -/
def gunRecord : LabelledXML :=
  { emptyLabelledXML with path := lstr "imgs\\gun1.jpg" }

/-- A mode-A annotation entry whose image copy fails at `os.Create`. -/
def copyFailEntry : AnnEntry :=
  ⟨lstr "dataset/gun/ann1.xml", lstr "ann1.xml",
    ⟨.content gunRecord, false, false, false, .createErr⟩⟩

/-- An annotation record whose xmax field does not parse as an integer
while every other geometry field does. -/
def badXmaxRecord : LabelledXML :=
  { emptyLabelledXML with
      path := lstr "imgs\\gun1.jpg",
      size := ⟨[], lstr "100", lstr "50", lstr "3"⟩,
      object := { emptyLabelledXML.object with
        bndbox := ⟨[], lstr "10", lstr "10", lstr "abc", lstr "30"⟩ } }

/-- A mode-B annotation entry carrying the bad-xmax record. -/
def badXmaxEntry : AnnEntry :=
  ⟨lstr "dataset/gun/ann1.xml", lstr "ann1.xml",
    ⟨.content badXmaxRecord, false, false, false, .copied false⟩⟩

/-- Shape of an extension string: empty or starting with a dot. -/
def extShape (l : List Char) : Prop := l = [] ∨ l.head? = some '.'

/-- The run invariant on counters and name assignments: each counter holds
the number of assignments charged to it, every recorded assignment used a
counter value below the current one with a class string matching its
counter, and no two assignments to the same counter share a value. -/
def stInv (st : St) (assigned : List Assigned) : Prop :=
  (∀ c, getCount st c = (assigned.filter fun a => a.cid = c).length) ∧
  (∀ a ∈ assigned, a.n < getCount st a.cid ∧ a.cls = className a.cid) ∧
  assigned.Pairwise fun a b => a.cid = b.cid → a.n ≠ b.n

/-- Every source whose image copy was performed is recorded in the
copied-image list. -/
def copySub (acc : RunAcc) : Prop :=
  ∀ q ∈ acc.imgCopies, q.1 ∈ acc.st.copiedImages

/-- C1: for every path, `getIndexFromPath` returns the fixed class index
determined by keyword containment in the lower-cased path — knife 0, fork 1,
gun 2, wrench 3, screwdriver 4 (higher-priority keywords absent in each
case), and -1 exactly when no class keyword occurs. -/
theorem getIndexFromPath_classIndexTable (p : List Char) :
    (getIndexFromPath p = -1 ↔
      (goContains (goToLower p) GUN = false ∧ goContains (goToLower p) KNIFE = false ∧
       goContains (goToLower p) WRENCH = false ∧ goContains (goToLower p) FORK = false ∧
       goContains (goToLower p) SCREWDRIVER = false)) ∧
    (goContains (goToLower p) KNIFE = true → goContains (goToLower p) GUN = false →
      getIndexFromPath p = 0) ∧
    (goContains (goToLower p) FORK = true → goContains (goToLower p) GUN = false →
      goContains (goToLower p) KNIFE = false → goContains (goToLower p) WRENCH = false →
      getIndexFromPath p = 1) ∧
    (goContains (goToLower p) GUN = true → getIndexFromPath p = 2) ∧
    (goContains (goToLower p) WRENCH = true → goContains (goToLower p) GUN = false →
      goContains (goToLower p) KNIFE = false → getIndexFromPath p = 3) ∧
    (goContains (goToLower p) SCREWDRIVER = true → goContains (goToLower p) GUN = false →
      goContains (goToLower p) KNIFE = false → goContains (goToLower p) WRENCH = false →
      goContains (goToLower p) FORK = false → getIndexFromPath p = 4) := by
  simp only [getIndexFromPath]
  cases hg : goContains (goToLower p) GUN <;>
    cases hk : goContains (goToLower p) KNIFE <;>
      cases hw : goContains (goToLower p) WRENCH <;>
        cases hf : goContains (goToLower p) FORK <;>
          cases hs : goContains (goToLower p) SCREWDRIVER <;>
            simp [hg, hk, hw, hf, hs]

/-- Witness for C1 at a concrete path containing only the keyword gun. -/
theorem getIndexFromPath_classIndexTable_witness :
    getIndexFromPath (lstr "dataset/GUN/img1.xml") = 2 :=
  (getIndexFromPath_classIndexTable (lstr "dataset/GUN/img1.xml")).2.2.2.1 (by decide)

/-- C2: `getClassFromPath` returns the class whose keyword occurs in the
lower-cased path, resolving multiple occurrences by the fixed priority
gun, knife, wrench, fork, screwdriver, and unknown exactly when no keyword
occurs (the exactly-one-keyword case is the instance where the other four
containment tests are false). -/
theorem getClassFromPath_priority (p : List Char) :
    ((getClassFromPath p).1 = UNKNOWN ↔
      (goContains (goToLower p) GUN = false ∧ goContains (goToLower p) KNIFE = false ∧
       goContains (goToLower p) WRENCH = false ∧ goContains (goToLower p) FORK = false ∧
       goContains (goToLower p) SCREWDRIVER = false)) ∧
    (goContains (goToLower p) GUN = true → (getClassFromPath p).1 = GUN) ∧
    (goContains (goToLower p) KNIFE = true → goContains (goToLower p) GUN = false →
      (getClassFromPath p).1 = KNIFE) ∧
    (goContains (goToLower p) WRENCH = true → goContains (goToLower p) GUN = false →
      goContains (goToLower p) KNIFE = false → (getClassFromPath p).1 = WRENCH) ∧
    (goContains (goToLower p) FORK = true → goContains (goToLower p) GUN = false →
      goContains (goToLower p) KNIFE = false → goContains (goToLower p) WRENCH = false →
      (getClassFromPath p).1 = FORK) ∧
    (goContains (goToLower p) SCREWDRIVER = true → goContains (goToLower p) GUN = false →
      goContains (goToLower p) KNIFE = false → goContains (goToLower p) WRENCH = false →
      goContains (goToLower p) FORK = false → (getClassFromPath p).1 = SCREWDRIVER) := by
  simp only [getClassFromPath]
  cases hg : goContains (goToLower p) GUN <;>
    cases hk : goContains (goToLower p) KNIFE <;>
      cases hw : goContains (goToLower p) WRENCH <;>
        cases hf : goContains (goToLower p) FORK <;>
          cases hs : goContains (goToLower p) SCREWDRIVER <;>
            simp [hg, hk, hw, hf, hs] <;> decide

/-- Witness for C2 at a concrete path containing both gun and knife:
priority picks gun. -/
theorem getClassFromPath_priority_witness :
    (getClassFromPath (lstr "dataset/knife/gun1.png")).1 = GUN :=
  (getClassFromPath_priority (lstr "dataset/knife/gun1.png")).2.1 (by decide)

/-- C10: the two keyword-matching functions are consistent: for every path,
`getIndexFromPath` equals the fixed table index of the class returned by
`getClassFromPath`, and returns -1 exactly when the class is unknown. -/
theorem getIndexFromPath_eq_classIndexTable_getClassFromPath (p : List Char) :
    getIndexFromPath p = classIndexTable (getClassFromPath p).1 ∧
    (getIndexFromPath p = -1 ↔ (getClassFromPath p).1 = UNKNOWN) := by
  simp only [getIndexFromPath, getClassFromPath]
  cases hg : goContains (goToLower p) GUN <;>
    cases hk : goContains (goToLower p) KNIFE <;>
      cases hw : goContains (goToLower p) WRENCH <;>
        cases hf : goContains (goToLower p) FORK <;>
          cases hs : goContains (goToLower p) SCREWDRIVER <;>
            simp [hg, hk, hw, hf, hs] <;> decide

/-- C3 counterexample: at width 100, height 50, box (10, 10, 50, 30) the
code's line is not the claimed "(idx) 0.280000 0.380000 0.400000 0.400000":
the x field is (10 + 50) / 2 - 1 = 29 scaled by 1 / 100, i.e. 0.290000. -/
theorem yoloLine_not_claimed_at_C3_input :
    yoloLine 2 10 10 50 30 100 50 ≠ lstr "2 0.280000 0.380000 0.400000 0.400000" := by
  decide

/-- C3 amended: at width 100, height 50, box (10, 10, 50, 30) the
normalized-box computation produces "(idx) 0.290000 0.380000 0.400000
0.400000" for every class index. -/
theorem yoloLine_at_C3_input (idx : Int) :
    yoloLine idx 10 10 50 30 100 50 =
      intChars idx ++ lstr " 0.290000 0.380000 0.400000 0.400000" := by
  simp only [yoloLine]
  congr 1

/-- C4 counterexample: with two files named x.jpg in the primary root, the
resolver returns the second (last) match of the walk, not the first. -/
theorem findCorrespondingFile_not_first_match :
    findCorrespondingFile
        [⟨lstr "dataset/images/a/x.jpg", false, lstr "x.jpg"⟩,
         ⟨lstr "dataset/images/b/x.jpg", false, lstr "x.jpg"⟩] []
        (lstr "C:\\imgs\\x.jpg") = lstr "dataset/images/b/x.jpg" ∧
      lstr "dataset/images/b/x.jpg" ≠ lstr "dataset/images/a/x.jpg" := by
  decide

/-- The walker over a list of entries keeps the path of the last match,
falling back to the initial value of `found`. -/
theorem walkFind_eq_getLastD (baseName : List Char) (es : List WalkEntry) :
    ∀ found, walkFind baseName found es =
      ((es.filter fun e => !e.isDir && e.name = baseName).map WalkEntry.path).getLastD
        found := by
  induction es with
  | nil => intro found; rfl
  | cons e es ih =>
      intro found
      show walkFind baseName (if !e.isDir && e.name = baseName then e.path else found)
          es = _
      by_cases h : (!e.isDir && decide (e.name = baseName)) = true
      · rw [if_pos h, ih, List.filter_cons, if_pos h, List.map_cons,
          List.getLastD_cons]
      · rw [if_neg h, ih, List.filter_cons, if_neg h]

/-- C4 amended: for entries with nonempty paths, the resolver returns the
last match encountered during the walk of the primary image root; the
secondary fallback root is searched only if the primary root yields no
match (then likewise its last match); and the empty string is returned
when neither root contains a match. -/
theorem findCorrespondingFile_last_match (primary secondary : List WalkEntry)
    (p : List Char) (hprim : ∀ e ∈ primary, e.path ≠ []) :
    findCorrespondingFile primary secondary p =
      match lastMatchPath (goBase (slashify p)) primary with
      | some q => q
      | none => (lastMatchPath (goBase (slashify p)) secondary).getD [] := by
  show (if (walkFind (goBase (slashify p)) [] primary).length = 0
        then walkFind (goBase (slashify p)) [] secondary
        else walkFind (goBase (slashify p)) [] primary) = _
  rw [walkFind_eq_getLastD (goBase (slashify p)) primary,
    walkFind_eq_getLastD (goBase (slashify p)) secondary]
  unfold lastMatchPath
  rcases hlast : ((primary.filter fun e => !e.isDir && e.name =
      goBase (slashify p)).map WalkEntry.path).getLast? with _ | q
  · simp [List.getLastD_eq_getLast?, hlast, Option.getD]
  · have hq : q ∈ (primary.filter fun e => !e.isDir && e.name =
        goBase (slashify p)).map WalkEntry.path := List.mem_of_mem_getLast? hlast
    rcases List.mem_map.1 hq with ⟨e, he, hep⟩
    have hqe : q ≠ [] := hep ▸ hprim e (List.mem_of_mem_filter he)
    simp [List.getLastD_eq_getLast?, hlast, List.length_eq_zero, hqe]

/-- Witness for C4's amended statement: one match in the primary root, one
in the fallback root; the primary match wins. -/
theorem findCorrespondingFile_last_match_witness :
    findCorrespondingFile
        [⟨lstr "dataset/images/a/x.jpg", false, lstr "x.jpg"⟩]
        [⟨lstr "dataset/allimages/x.jpg", false, lstr "x.jpg"⟩]
        (lstr "d\\x.jpg") = lstr "dataset/images/a/x.jpg" := by
  rw [findCorrespondingFile_last_match _ _ _ (by decide)]
  decide

/-- C5 counterexample: a decode yielding the all-empty record is not
treated as unreadable — the driver raises no error and simply continues,
leaving the accumulator unchanged (the empty recorded image path resolves
to nothing, so the file is silently skipped). -/
theorem annStep_empty_record_not_aborted :
    annStep false [] [] RunAcc.init emptyRecordEntry = .ok RunAcc.init := by
  rfl

/-- The mode-A branch never returns the "Cannot read XML" abort. -/
theorem modeABranch_not_unreadable (acc : RunAcc) (cc : List Char × CounterId)
    (foundImage path : List Char) (env : AnnEnv) :
    abortsUnreadable (modeABranch acc cc foundImage path env) = false := by
  unfold modeABranch
  split_ifs <;> rfl

/-- The yolo branch never returns the "Cannot read XML" abort. -/
theorem yoloBranch_not_unreadable (acc : RunAcc) (classIndex : Int)
    (data : LabelledXML) (foundImage : List Char) (env : AnnEnv) :
    abortsUnreadable (yoloBranch acc classIndex data foundImage env) = false := by
  unfold yoloBranch
  dsimp only
  split_ifs <;> rfl

/-- C5 amended: `readLabelled` returns a nil record only together with an
open error, so the driver's nil-check branch never fires for a decoded
record: for every decoded record (the all-empty one included) the step
never returns the "Cannot read XML" abort, the read check proceeds with
the record, and only an open failure aborts the file. -/
theorem annStep_decoded_record_never_unreadable (yolo : Bool)
    (primary secondary : List WalkEntry) (acc : RunAcc) (path name : List Char)
    (r : LabelledXML) (relErr marshalErr writeErr : Bool) (co : CopyOutcome)
    (m : List Char) :
    abortsUnreadable (annStep yolo primary secondary acc
        ⟨path, name, ⟨.content r, relErr, marshalErr, writeErr, co⟩⟩) = false ∧
    driverReadCheck path (.content r) = .proceed r ∧
    driverReadCheck path (.openFail m) = .abort (.openMsg m) := by
  refine ⟨?_, rfl, rfl⟩
  unfold annStep
  split
  · simp only [driverReadCheck, readLabelled]
    split_ifs <;>
      first
      | rfl
      | apply modeABranch_not_unreadable
      | apply yoloBranch_not_unreadable
  · rfl

/-- C7 counterexample: in mode A a failed image copy is discarded: the
annotation file is written, no image copy happens, and the class counter
is still incremented — the claimed atomicity does not hold. -/
theorem annStep_modeA_copy_failure_still_increments :
    (stepOk (annStep false gunImageWalk [] RunAcc.init copyFailEntry)).map
        (fun a => (getCount a.st CounterId.gun, a.imgCopies, a.xmlWrites)) =
      some (1, [], [lstr "output/gun/gun_0.xml"]) := by
  decide

/-- C8: every one of the six `strconv.Atoi` calls overwrites the same
`err` variable, so only the height parse is actually checked: with
xmax "abc" (and all other fields valid) the step does not abort — it
produces a label line computed with xmax = 0 and bumps the counter. -/
theorem annStep_modeB_unparsable_xmax_produces_output :
    (stepOk (annStep true gunImageWalk [] RunAcc.init badXmaxEntry)).map
        (fun a => (a.yoloOuts, a.st.totalCount)) =
      some ([(2, lstr "2 0.040000 0.380000 -0.100000 0.400000")], 1) := by
  decide

/-- C6 counterexample: the unlabelled-image sweep classifies and counts
every walked path, directories included; here the walk root itself (a
directory, whose copy fails as "not a regular file") bumps the unknown
counter although no output was successfully written. -/
theorem sweepRun_increments_without_successful_write :
    (sweepRun RunAcc.init [⟨lstr "dataset/images", .notRegular⟩]).st.unknownCount = 1 ∧
    (sweepRun RunAcc.init [⟨lstr "dataset/images", .notRegular⟩]).imgCopies = [] := by
  decide

/-- Incrementing a counter raises exactly that counter by one. -/
theorem getCount_incCount_self (st : St) (c : CounterId) :
    getCount (incCount st c) c = getCount st c + 1 := by
  cases c <;> rfl

/-- Incrementing a counter leaves the other counters unchanged. -/
theorem getCount_incCount_other (st : St) (c d : CounterId) (h : d ≠ c) :
    getCount (incCount st c) d = getCount st d := by
  cases c <;> cases d <;> first | rfl | exact absurd rfl h

/-- `copy` never touches the class counters. -/
theorem getCount_goCopy (out : CopyOutcome) (src : List Char) (st : St)
    (c : CounterId) : getCount (goCopy out src st).1 c = getCount st c := by
  cases out <;> cases c <;> rfl

/-- `copy` can only grow the copied-image list. -/
theorem goCopy_copiedImages (out : CopyOutcome) (src : List Char) (st : St) :
    (goCopy out src st).1.copiedImages = st.copiedImages ∨
      (goCopy out src st).1.copiedImages = st.copiedImages ++ [src] := by
  cases out <;> simp [goCopy]

/-- C7 amended: in mode A, a failed annotation-file write aborts the run
before the counter is incremented, but the image-copy error is discarded:
when the annotation write succeeds the class counter is incremented
exactly once and the annotation is written whether or not the image copy
succeeds, the image copy happening only when `copy` reaches the content
stage. -/
theorem annStep_modeA_increment_spec (primary secondary : List WalkEntry)
    (acc : RunAcc) (path name : List Char) (r : LabelledXML) (co : CopyOutcome)
    (hxml : goExt name = lstr ".xml")
    (hfound : (findCorrespondingFile primary secondary r.path).length ≠ 0) :
    (annStep false primary secondary acc
        ⟨path, name, ⟨.content r, false, false, true, co⟩⟩ = .error .writeErrMsg) ∧
    (∀ acc2, annStep false primary secondary acc
        ⟨path, name, ⟨.content r, false, false, false, co⟩⟩ = .ok acc2 →
      getCount acc2.st (classifyFallback path r.path).2 =
          getCount acc.st (classifyFallback path r.path).2 + 1 ∧
        acc2.xmlWrites.length = acc.xmlWrites.length + 1 ∧
        acc2.imgCopies.length = acc.imgCopies.length +
          (match co with | .copied _ => 1 | _ => 0)) := by
  constructor
  · unfold annStep
    rw [if_pos hxml]
    simp only [driverReadCheck, readLabelled]
    rw [if_pos hfound]
    rfl
  · intro acc2 h
    unfold annStep at h
    rw [if_pos hxml] at h
    simp only [driverReadCheck, readLabelled] at h
    rw [if_pos hfound] at h
    injection h with h
    subst h
    refine ⟨?_, ?_, ?_⟩
    · rw [getCount_incCount_self, getCount_goCopy]
    · simp
    · cases co <;> simp [goCopy]

/-- Witness for C7's amended statement: the write-failure half at the
concrete gun fixture. -/
theorem annStep_modeA_increment_spec_witness :
    annStep false gunImageWalk [] RunAcc.init
        ⟨lstr "dataset/gun/ann1.xml", lstr "ann1.xml",
          ⟨.content gunRecord, false, false, true, .createErr⟩⟩ =
      .error .writeErrMsg :=
  (annStep_modeA_increment_spec gunImageWalk [] RunAcc.init
    (lstr "dataset/gun/ann1.xml") (lstr "ann1.xml") gunRecord .createErr
    (by decide) (by decide)).1

/-- The digit emitter only prepends to its accumulator. -/
theorem natCharsGo_acc (fuel : Nat) : ∀ (n : Nat) (acc : List Char),
    natCharsGo fuel n acc = natCharsGo fuel n [] ++ acc := by
  induction fuel with
  | zero => intro n acc; rfl
  | succ fuel ih =>
      intro n acc
      by_cases h : n < 10
      · simp [natCharsGo, h]
      · simp only [natCharsGo, if_neg h]
        rw [ih (n / 10) (digitChar (n % 10) :: acc),
          ih (n / 10) (digitChar (n % 10) :: [])]
        simp

/-- The code of a digit character recovers the digit. -/
theorem digitChar_toNat (d : Nat) (h : d < 10) : (digitChar d).toNat = 48 + d := by
  interval_cases d <;> rfl

/-- Digit characters satisfy `Char.isDigit`. -/
theorem digitChar_isDigit (d : Nat) (h : d < 10) : (digitChar d).isDigit = true := by
  interval_cases d <;> rfl

/-- With enough fuel, the emitted digit string evaluates back to the
number, is nonempty, and consists of digit characters. -/
theorem natCharsGo_spec (fuel : Nat) : ∀ n, n < fuel →
    List.foldl (fun a c => 10 * a + (c.toNat - 48)) 0 (natCharsGo fuel n []) = n ∧
    natCharsGo fuel n [] ≠ [] ∧
    (∀ c ∈ natCharsGo fuel n [], c.isDigit = true) := by
  induction fuel with
  | zero => intro n h; omega
  | succ fuel ih =>
      intro n hn
      by_cases h : n < 10
      · refine ⟨?_, by simp [natCharsGo, h], ?_⟩
        · simp [natCharsGo, h, digitChar_toNat n h]
        · intro c hc
          simp [natCharsGo, h] at hc
          subst hc
          exact digitChar_isDigit n h
      · have hdiv : n / 10 < fuel := by omega
        obtain ⟨hval, hne, hdig⟩ := ih (n / 10) hdiv
        have hrw : natCharsGo (fuel + 1) n [] =
            natCharsGo fuel (n / 10) [] ++ [digitChar (n % 10)] := by
          simp only [natCharsGo, if_neg h]
          exact natCharsGo_acc fuel (n / 10) [digitChar (n % 10)]
        refine ⟨?_, by simp [hrw], ?_⟩
        · rw [hrw, List.foldl_append, hval]
          simp [digitChar_toNat (n % 10) (Nat.mod_lt n (by omega))]
          omega
        · intro c hc
          rw [hrw] at hc
          rcases List.mem_append.1 hc with h1 | h1
          · exact hdig c h1
          · simp at h1
            subst h1
            exact digitChar_isDigit (n % 10) (Nat.mod_lt n (by omega))

/-- The decimal representation evaluates back to its number. -/
theorem charsVal_natChars (n : Nat) :
    List.foldl (fun a c => 10 * a + (c.toNat - 48)) 0 (natChars n) = n :=
  (natCharsGo_spec (n + 1) n (Nat.lt_succ_self n)).1

/-- The decimal representation is injective. -/
theorem natChars_inj {m n : Nat} (h : natChars m = natChars n) : m = n := by
  have hm := charsVal_natChars m
  rw [h, charsVal_natChars] at hm
  exact hm.symm

/-- Every character of a decimal representation is a digit. -/
theorem natChars_digits (n : Nat) : ∀ c ∈ natChars n, c.isDigit = true :=
  (natCharsGo_spec (n + 1) n (Nat.lt_succ_self n)).2.2

/-- The extension worker preserves the extension shape. -/
theorem goExtGo_shape : ∀ (p acc : List Char), extShape acc →
    extShape (goExtGo acc p) := by
  intro p
  induction p with
  | nil => intro acc h; exact h
  | cons c cs ih =>
      intro acc h
      simp only [goExtGo]
      by_cases h1 : c = '/'
      · rw [if_pos h1]; exact ih [] (Or.inl rfl)
      · rw [if_neg h1]
        by_cases h2 : c = '.'
        · rw [if_pos h2]; exact ih ['.'] (Or.inr rfl)
        · rw [if_neg h2]
          by_cases h3 : acc = []
          · rw [if_pos h3]; exact ih [] (Or.inl rfl)
          · rw [if_neg h3]
            apply ih
            rcases h with h | h
            · exact absurd h h3
            · right
              rcases acc with _ | ⟨a, as⟩
              · exact absurd rfl h3
              · simpa using h

/-- Every extension `filepath.Ext` produces is empty or dot-led. -/
theorem goExt_shape (p : List Char) : extShape (goExt p) :=
  goExtGo_shape p [] (Or.inl rfl)

/-- Taking the digit run of a digit string followed by an extension-shaped
tail recovers exactly the digit string. -/
theorem takeWhile_digits_append (a e : List Char)
    (ha : ∀ c ∈ a, c.isDigit = true) (he : extShape e) :
    (a ++ e).takeWhile Char.isDigit = a := by
  induction a with
  | nil =>
      simp only [List.nil_append]
      rcases he with h | h
      · subst h; rfl
      · rcases e with _ | ⟨c, cs⟩
        · rfl
        · simp only [List.head?] at h
          injection h with h
          subst h
          rfl
  | cons c cs ih =>
      have hc : c.isDigit = true := ha c (List.mem_cons_self c cs)
      simp only [List.cons_append, List.takeWhile_cons, hc, if_true]
      rw [ih fun x hx => ha x (List.mem_cons_of_mem c hx)]

/-- For a fixed class, two output file names agree only when the counter
values agree: the counter digits end at the dot (or the end) of the
extension. -/
theorem getOutputFileName_inj (cls : List Char) (n1 n2 : Nat) (p1 p2 : List Char)
    (h : getOutputFileName cls n1 p1 = getOutputFileName cls n2 p2) : n1 = n2 := by
  unfold getOutputFileName createOutputDir at h
  rw [List.append_assoc, List.append_assoc] at h
  have h1 := List.append_cancel_left h
  have h2 := List.append_cancel_left (List.append_cancel_left h1)
  have h3 := List.append_cancel_left (List.append_cancel_left h2)
  have h4 := congrArg (List.takeWhile Char.isDigit) h3
  rw [takeWhile_digits_append _ _ (natChars_digits n1) (goExt_shape p1),
    takeWhile_digits_append _ _ (natChars_digits n2) (goExt_shape p2)] at h4
  exact natChars_inj h4

/-- Distinct counters have distinct class strings. -/
theorem className_inj (c d : CounterId) (h : className c = className d) :
    c = d := by
  cases c <;> cases d <;> first | rfl | exact absurd h (by decide)

/-- `getClassFromPath` pairs each class string with its own counter. -/
theorem getClassFromPath_consistent (p : List Char) :
    (getClassFromPath p).1 = className (getClassFromPath p).2 := by
  simp only [getClassFromPath]
  cases hg : goContains (goToLower p) GUN <;>
    cases hk : goContains (goToLower p) KNIFE <;>
      cases hw : goContains (goToLower p) WRENCH <;>
        cases hf : goContains (goToLower p) FORK <;>
          cases hs : goContains (goToLower p) SCREWDRIVER <;>
            simp [hg, hk, hw, hf, hs, className]

/-- The two-stage classification also pairs each class string with its own
counter. -/
theorem classifyFallback_consistent (p r : List Char) :
    (classifyFallback p r).1 = className (classifyFallback p r).2 := by
  unfold classifyFallback
  by_cases h : (getClassFromPath p).1 = UNKNOWN
  · rw [if_pos h]; exact getClassFromPath_consistent r
  · rw [if_neg h]; exact getClassFromPath_consistent p

/-- The invariant holds at process start. -/
theorem stInv_init : stInv St.init [] := by
  refine ⟨fun c => by cases c <;> rfl, by simp, by simp⟩

/-- The invariant only reads the counters, so any state with the same
counter values inherits it. -/
theorem stInv_congr (st st1 : St) (assigned : List Assigned)
    (h : stInv st assigned) (hc : ∀ c, getCount st1 c = getCount st c) :
    stInv st1 assigned := by
  obtain ⟨h1, h2, h3⟩ := h
  exact ⟨fun c => (hc c).trans (h1 c),
    fun a ha => ⟨(hc a.cid).symm ▸ (h2 a ha).1, (h2 a ha).2⟩, h3⟩

/-- Charging one fresh assignment at the current counter value and then
incrementing that counter preserves the invariant. -/
theorem stInv_extend (st st1 : St) (assigned : List Assigned)
    (cc : List Char × CounterId) (ext : List Char)
    (hinv : stInv st assigned) (hcc : cc.1 = className cc.2)
    (hc : ∀ c, getCount st1 c = getCount st c) :
    stInv (incCount st1 cc.2)
      (assigned ++ [⟨cc.1, cc.2, getCount st cc.2, ext⟩]) := by
  obtain ⟨h1, h2, h3⟩ := hinv
  refine ⟨?_, ?_, ?_⟩
  · intro c
    rw [List.filter_append, List.length_append]
    by_cases hcid : cc.2 = c
    · subst hcid
      rw [getCount_incCount_self, hc, h1 cc.2]
      simp
    · rw [getCount_incCount_other _ _ _ fun hh => hcid hh.symm, hc, h1 c]
      simp [hcid]
  · intro a ha
    rcases List.mem_append.1 ha with ha | ha
    · obtain ⟨hb, hcls⟩ := h2 a ha
      refine ⟨?_, hcls⟩
      by_cases hcid : a.cid = cc.2
      · rw [hcid, getCount_incCount_self, hc]
        exact lt_trans (hcid ▸ hb) (Nat.lt_succ_self _)
      · rw [getCount_incCount_other _ _ _ hcid, hc]
        exact hb
    · simp at ha
      subst ha
      exact ⟨by simp [getCount_incCount_self, hc], hcc⟩
  · rw [List.pairwise_append]
    refine ⟨h3, List.pairwise_singleton _ _, ?_⟩
    intro a ha b hb
    simp at hb
    subst hb
    intro hcid
    have hcid2 : a.cid = cc.2 := hcid
    have hb2 := (h2 a ha).1
    rw [hcid2] at hb2
    show a.n ≠ getCount st cc.2
    omega

/-- Overwriting the total counter leaves the class counters unchanged. -/
theorem getCount_setTotal (st : St) (x : Nat) (c : CounterId) :
    getCount { st with totalCount := x } c = getCount st c := by
  cases c <;> rfl

/-- A sweep step preserves the counter/assignment invariant. -/
theorem sweepStep_inv (acc : RunAcc) (e : SweepEntry)
    (h : stInv acc.st acc.assigned) :
    stInv (sweepStep acc e).st (sweepStep acc e).assigned := by
  unfold sweepStep
  by_cases hmem : e.path ∈ acc.st.copiedImages
  · rw [if_pos hmem]; exact h
  · rw [if_neg hmem]
    exact stInv_extend acc.st _ acc.assigned (getClassFromPath e.path) _ h
      (getClassFromPath_consistent e.path) (getCount_goCopy _ _ _)

/-- A successful mode-A branch preserves the counter/assignment
invariant. -/
theorem modeABranch_inv (acc : RunAcc) (cc : List Char × CounterId)
    (foundImage path : List Char) (env : AnnEnv) (acc2 : RunAcc)
    (hcc : cc.1 = className cc.2)
    (h : modeABranch acc cc foundImage path env = .ok acc2)
    (hinv : stInv acc.st acc.assigned) : stInv acc2.st acc2.assigned := by
  unfold modeABranch at h
  split_ifs at h <;>
    first
    | exact Except.noConfusion h
    | (injection h with h
       subst h
       exact stInv_extend acc.st _ acc.assigned cc _ hinv hcc
         (getCount_goCopy _ _ _))

/-- A successful yolo branch preserves the counter/assignment invariant:
it touches neither the class counters nor the assignment list. -/
theorem yoloBranch_inv (acc : RunAcc) (classIndex : Int) (data : LabelledXML)
    (foundImage : List Char) (env : AnnEnv) (acc2 : RunAcc)
    (h : yoloBranch acc classIndex data foundImage env = .ok acc2)
    (hinv : stInv acc.st acc.assigned) : stInv acc2.st acc2.assigned := by
  unfold yoloBranch at h
  dsimp only at h
  split_ifs at h <;>
    first
    | exact Except.noConfusion h
    | (injection h with h
       subst h
       exact stInv_congr acc.st _ acc.assigned hinv fun c =>
         (getCount_setTotal _ _ c).trans (getCount_goCopy _ _ _ c))

/-- A successful annotation step preserves the counter/assignment
invariant. -/
theorem annStep_inv (yolo : Bool) (primary secondary : List WalkEntry)
    (acc : RunAcc) (e : AnnEntry) (acc2 : RunAcc)
    (h : annStep yolo primary secondary acc e = .ok acc2)
    (hinv : stInv acc.st acc.assigned) : stInv acc2.st acc2.assigned := by
  unfold annStep at h
  split at h
  · split at h
    · exact Except.noConfusion h
    · split at h
      · split at h
        · exact modeABranch_inv _ _ _ _ _ _ (classifyFallback_consistent _ _) h hinv
        · exact yoloBranch_inv _ _ _ _ _ _ h hinv
      · injection h with h
        subst h
        exact hinv
  · injection h with h
    subst h
    exact hinv

/-- The invariant survives a whole annotation run. -/
theorem annRun_inv (yolo : Bool) (primary secondary : List WalkEntry) :
    ∀ (es : List AnnEntry) (acc acc2 : RunAcc),
      annRun yolo primary secondary acc es = .ok acc2 →
      stInv acc.st acc.assigned → stInv acc2.st acc2.assigned := by
  intro es
  induction es with
  | nil =>
      intro acc acc2 h hinv
      injection h with h
      subst h
      exact hinv
  | cons e es ih =>
      intro acc acc2 h hinv
      simp only [annRun] at h
      cases hst : annStep yolo primary secondary acc e with
      | error m => rw [hst] at h; exact Except.noConfusion h
      | ok acc1 =>
          rw [hst] at h
          exact ih acc1 acc2 h (annStep_inv _ _ _ _ _ _ hst hinv)

/-- The invariant survives the whole sweep. -/
theorem sweepRun_inv : ∀ (es : List SweepEntry) (acc : RunAcc),
    stInv acc.st acc.assigned →
    stInv (sweepRun acc es).st (sweepRun acc es).assigned := by
  intro es
  induction es with
  | nil => intro acc h; exact h
  | cons e es ih => intro acc h; exact ih (sweepStep acc e) (sweepStep_inv acc e h)

/-- C6 amended: every per-class counter starts at 0, and after the mode-A
annotation pass followed by the unlabelled-image sweep each counter equals
the number of output-name assignments charged to it — one per processed
file, whether or not its image copy succeeded (a failed copy's error is
discarded, yet the counter still moves) — and consequently no two files
classified into the same class ever receive the same output name. -/
theorem perClass_output_names_unique (primary secondary : List WalkEntry)
    (annEs : List AnnEntry) (sweepEs : List SweepEntry) (acc2 : RunAcc)
    (hA : annRun false primary secondary RunAcc.init annEs = .ok acc2) :
    (∀ c, getCount St.init c = 0) ∧
    (∀ c, getCount (sweepRun acc2 sweepEs).st c =
      ((sweepRun acc2 sweepEs).assigned.filter fun a => a.cid = c).length) ∧
    (sweepRun acc2 sweepEs).assigned.Pairwise (fun a b => a.cls = b.cls →
      getOutputFileName a.cls a.n a.extSrc ≠
        getOutputFileName b.cls b.n b.extSrc) := by
  have hinv : stInv (sweepRun acc2 sweepEs).st (sweepRun acc2 sweepEs).assigned :=
    sweepRun_inv sweepEs acc2
      (annRun_inv false primary secondary annEs RunAcc.init acc2 hA stInv_init)
  obtain ⟨h1, h2, h3⟩ := hinv
  refine ⟨fun c => by cases c <;> rfl, h1, ?_⟩
  refine List.Pairwise.imp_of_mem ?_ h3
  intro a b ha hb hR hcls heq
  have hac := (h2 a ha).2
  have hbc := (h2 b hb).2
  have hcid : a.cid = b.cid := className_inj _ _ (by rw [← hac, ← hbc, hcls])
  apply hR hcid
  apply getOutputFileName_inj a.cls a.n b.n a.extSrc b.extSrc
  rw [heq, hcls]

/-- Witness for C6's amended statement: a sweep over two distinct images
of the same class yields distinct output names. -/
theorem perClass_output_names_unique_witness :
    ((sweepRun RunAcc.init
        [⟨lstr "dataset/images/gun_a.png", CopyOutcome.copied false⟩,
         ⟨lstr "dataset/images/gun_b.png", CopyOutcome.copied false⟩]).assigned.Pairwise
      fun a b => a.cls = b.cls →
        getOutputFileName a.cls a.n a.extSrc ≠
          getOutputFileName b.cls b.n b.extSrc) :=
  (perClass_output_names_unique [] [] [] _ RunAcc.init rfl).2.2

/-- Incrementing a class counter leaves the copied-image list unchanged. -/
theorem copiedImages_incCount (st : St) (c : CounterId) :
    (incCount st c).copiedImages = st.copiedImages := by
  cases c <;> rfl

/-- `copy` never removes recorded copied images. -/
theorem goCopy_mem (out : CopyOutcome) (src : List Char) (st : St)
    (p : List Char) (h : p ∈ st.copiedImages) :
    p ∈ (goCopy out src st).1.copiedImages := by
  cases out <;> simp [goCopy, List.mem_append, h]

/-- Whenever `copy` reaches the content stage, the source lands in the
copied-image list. -/
theorem goCopy_self_mem (out : CopyOutcome) (src : List Char) (st : St)
    (h : (goCopy out src st).2 = true) :
    src ∈ (goCopy out src st).1.copiedImages := by
  cases out <;> simp [goCopy, List.mem_append] at h ⊢

/-- The mode-A branch preserves the record-of-copies inclusion. -/
theorem modeABranch_copySub (acc : RunAcc) (cc : List Char × CounterId)
    (foundImage path : List Char) (env : AnnEnv) (acc2 : RunAcc)
    (h : modeABranch acc cc foundImage path env = .ok acc2)
    (hs : copySub acc) : copySub acc2 := by
  unfold modeABranch at h
  split_ifs at h <;>
    first
    | exact Except.noConfusion h
    | (injection h with h
       subst h
       intro q hq
       show q.1 ∈ (incCount (goCopy env.copyOutcome foundImage acc.st).1 cc.2).copiedImages
       rw [copiedImages_incCount]
       rcases List.mem_append.1 hq with hq | hq
       · exact goCopy_mem _ _ _ _ (hs q hq)
       · by_cases hc : (goCopy env.copyOutcome foundImage acc.st).2 = true
         · rw [if_pos hc] at hq
           simp at hq
           rw [hq]
           exact goCopy_self_mem _ _ _ hc
         · rw [if_neg hc] at hq
           exact absurd hq (List.not_mem_nil q))

/-- The yolo branch preserves the record-of-copies inclusion. -/
theorem yoloBranch_copySub (acc : RunAcc) (classIndex : Int)
    (data : LabelledXML) (foundImage : List Char) (env : AnnEnv) (acc2 : RunAcc)
    (h : yoloBranch acc classIndex data foundImage env = .ok acc2)
    (hs : copySub acc) : copySub acc2 := by
  unfold yoloBranch at h
  dsimp only at h
  split_ifs at h <;>
    first
    | exact Except.noConfusion h
    | (injection h with h
       subst h
       intro q hq
       show q.1 ∈ (goCopy env.copyOutcome foundImage acc.st).1.copiedImages
       rcases List.mem_append.1 hq with hq | hq
       · exact goCopy_mem _ _ _ _ (hs q hq)
       · first
         | exact absurd hq (List.not_mem_nil q)
         | (rw [List.mem_singleton] at hq
            rw [hq]
            exact goCopy_self_mem _ _ _ (by assumption)))

/-- A successful annotation step preserves the record-of-copies
inclusion. -/
theorem annStep_copySub (yolo : Bool) (primary secondary : List WalkEntry)
    (acc : RunAcc) (e : AnnEntry) (acc2 : RunAcc)
    (h : annStep yolo primary secondary acc e = .ok acc2)
    (hs : copySub acc) : copySub acc2 := by
  unfold annStep at h
  split at h
  · split at h
    · exact Except.noConfusion h
    · split at h
      · split at h
        · exact modeABranch_copySub _ _ _ _ _ _ h hs
        · exact yoloBranch_copySub _ _ _ _ _ _ h hs
      · injection h with h
        subst h
        exact hs
  · injection h with h
    subst h
    exact hs

/-- The record-of-copies inclusion survives a whole annotation run. -/
theorem annRun_copySub (yolo : Bool) (primary secondary : List WalkEntry) :
    ∀ (es : List AnnEntry) (acc acc2 : RunAcc),
      annRun yolo primary secondary acc es = .ok acc2 →
      copySub acc → copySub acc2 := by
  intro es
  induction es with
  | nil =>
      intro acc acc2 h hs
      injection h with h
      subst h
      exact hs
  | cons e es ih =>
      intro acc acc2 h hs
      simp only [annRun] at h
      cases hst : annStep yolo primary secondary acc e with
      | error m => rw [hst] at h; exact Except.noConfusion h
      | ok acc1 =>
          rw [hst] at h
          exact ih acc1 acc2 h (annStep_copySub _ _ _ _ _ _ hst hs)

/-- A sweep step never loses a membership in the copied-image list. -/
theorem sweepStep_mem (acc : RunAcc) (e : SweepEntry) (p : List Char)
    (h : p ∈ acc.st.copiedImages) : p ∈ (sweepStep acc e).st.copiedImages := by
  unfold sweepStep
  by_cases hmem : e.path ∈ acc.st.copiedImages
  · rw [if_pos hmem]; exact h
  · rw [if_neg hmem]
    show p ∈ (incCount (goCopy e.copyOutcome e.path acc.st).1
      (getClassFromPath e.path).2).copiedImages
    rw [copiedImages_incCount]
    exact goCopy_mem _ _ _ _ h

/-- A sweep step over an entry with a different path never copies `p`. -/
theorem sweepStep_count_of_ne (acc : RunAcc) (e : SweepEntry) (p : List Char)
    (hne : e.path ≠ p) :
    ((sweepStep acc e).imgCopies.map Prod.fst).count p =
      (acc.imgCopies.map Prod.fst).count p := by
  unfold sweepStep
  by_cases hmem : e.path ∈ acc.st.copiedImages
  · rw [if_pos hmem]
  · rw [if_neg hmem]
    show ((acc.imgCopies ++
      (if (goCopy e.copyOutcome e.path acc.st).2 = true then
        [(e.path, getOutputFileName (getClassFromPath e.path).1
          (getCount acc.st (getClassFromPath e.path).2) (goExt e.path))]
       else [])).map Prod.fst).count p = _
    by_cases hc : (goCopy e.copyOutcome e.path acc.st).2 = true
    · rw [if_pos hc]
      simp [List.count_append, List.count_cons, hne]
    · rw [if_neg hc]
      simp

/-- A sweep step over a path already recorded as copied copies nothing for
that path. -/
theorem sweepStep_count_of_mem (acc : RunAcc) (e : SweepEntry) (p : List Char)
    (h : p ∈ acc.st.copiedImages) :
    ((sweepStep acc e).imgCopies.map Prod.fst).count p =
      (acc.imgCopies.map Prod.fst).count p := by
  by_cases hne : e.path = p
  · unfold sweepStep
    rw [hne, if_pos h]
  · exact sweepStep_count_of_ne acc e p hne

/-- The whole sweep never copies a path already recorded as copied. -/
theorem sweepRun_count_of_mem : ∀ (es : List SweepEntry) (acc : RunAcc)
    (p : List Char), p ∈ acc.st.copiedImages →
    ((sweepRun acc es).imgCopies.map Prod.fst).count p =
      (acc.imgCopies.map Prod.fst).count p := by
  intro es
  induction es with
  | nil => intro acc p _; rfl
  | cons e es ih =>
      intro acc p h
      show ((sweepRun (sweepStep acc e) es).imgCopies.map Prod.fst).count p = _
      rw [ih (sweepStep acc e) p (sweepStep_mem acc e p h),
        sweepStep_count_of_mem acc e p h]

/-- A sweep step over an entry with a different path does not add that
path to the copied-image list. -/
theorem sweepStep_not_mem (acc : RunAcc) (e : SweepEntry) (p : List Char)
    (hne : e.path ≠ p) (h : p ∉ acc.st.copiedImages) :
    p ∉ (sweepStep acc e).st.copiedImages := by
  unfold sweepStep
  by_cases hmem : e.path ∈ acc.st.copiedImages
  · rw [if_pos hmem]; exact h
  · rw [if_neg hmem]
    show p ∉ (incCount (goCopy e.copyOutcome e.path acc.st).1
      (getClassFromPath e.path).2).copiedImages
    rw [copiedImages_incCount]
    intro hx
    rcases goCopy_copiedImages e.copyOutcome e.path acc.st with hg | hg
    · rw [hg] at hx; exact h hx
    · rw [hg] at hx
      rcases List.mem_append.1 hx with hx | hx
      · exact h hx
      · rw [List.mem_singleton] at hx
        exact hne hx.symm

/-- An unrecorded path whose entry's copy reaches the content stage is
copied by the sweep exactly once more than before. -/
theorem sweepRun_count_new : ∀ (es : List SweepEntry) (acc : RunAcc)
    (e : SweepEntry), (es.map SweepEntry.path).Nodup → e ∈ es →
    e.path ∉ acc.st.copiedImages →
    (∃ b, e.copyOutcome = CopyOutcome.copied b) →
    ((sweepRun acc es).imgCopies.map Prod.fst).count e.path =
      (acc.imgCopies.map Prod.fst).count e.path + 1 := by
  intro es
  induction es with
  | nil => intro acc e _ he; exact absurd he (List.not_mem_nil e)
  | cons e0 es ih =>
      intro acc e hnodup he hmem hco
      have hnodup' : (List.map SweepEntry.path (e0 :: es)).Nodup := hnodup
      rw [List.map_cons, List.nodup_cons] at hnodup'
      obtain ⟨hnotin, hnodup2⟩ := hnodup'
      show ((sweepRun (sweepStep acc e0) es).imgCopies.map Prod.fst).count e.path = _
      rcases List.mem_cons.1 he with he | he
      · subst he
        obtain ⟨b, hb⟩ := hco
        have hstep_mem : e.path ∈ (sweepStep acc e).st.copiedImages := by
          unfold sweepStep
          rw [if_neg hmem]
          show e.path ∈ (incCount (goCopy e.copyOutcome e.path acc.st).1
            (getClassFromPath e.path).2).copiedImages
          rw [copiedImages_incCount, hb]
          simp [goCopy, List.mem_append]
        have hstep_count : ((sweepStep acc e).imgCopies.map Prod.fst).count e.path =
            (acc.imgCopies.map Prod.fst).count e.path + 1 := by
          unfold sweepStep
          rw [if_neg hmem]
          show ((acc.imgCopies ++
            (if (goCopy e.copyOutcome e.path acc.st).2 = true then
              [(e.path, getOutputFileName (getClassFromPath e.path).1
                (getCount acc.st (getClassFromPath e.path).2) (goExt e.path))]
             else [])).map Prod.fst).count e.path = _
          rw [hb]
          simp [goCopy, List.count_append, List.count_cons]
        rw [sweepRun_count_of_mem es (sweepStep acc e) e.path hstep_mem,
          hstep_count]
      · have hne : e0.path ≠ e.path := by
          intro hx
          exact hnotin (hx ▸ List.mem_map_of_mem SweepEntry.path he)
        rw [ih (sweepStep acc e0) e hnodup2 he
          (sweepStep_not_mem acc e0 e.path hne hmem) hco,
          sweepStep_count_of_ne acc e0 e.path hne]

/-- C9: in either annotation mode (the shipped `main` runs the yolo mode,
`scanAllLabelled(true)`; the rewrite mode is `false`), every source image
whose content was copied during the annotation pass is recorded in the
copied-image list and is never copied again by the sweep; and every sweep
path the pass did not record, visited once by the walk and whose copy
reaches the content stage, is copied exactly once by the sweep. -/
theorem sweep_dedup (yolo : Bool) (primary secondary : List WalkEntry)
    (annEs : List AnnEntry) (sweepEs : List SweepEntry) (acc2 : RunAcc)
    (hA : annRun yolo primary secondary RunAcc.init annEs = .ok acc2)
    (hnodup : (sweepEs.map SweepEntry.path).Nodup) :
    (∀ src ∈ acc2.imgCopies.map Prod.fst,
        ((sweepRun acc2 sweepEs).imgCopies.map Prod.fst).count src =
          (acc2.imgCopies.map Prod.fst).count src) ∧
    (∀ e ∈ sweepEs, e.path ∉ acc2.st.copiedImages →
        (∃ b, e.copyOutcome = CopyOutcome.copied b) →
        ((sweepRun acc2 sweepEs).imgCopies.map Prod.fst).count e.path = 1) := by
  have hsub : copySub acc2 :=
    annRun_copySub yolo primary secondary annEs RunAcc.init acc2 hA
      fun q hq => absurd hq (List.not_mem_nil q)
  constructor
  · intro src hsrc
    rcases List.mem_map.1 hsrc with ⟨q, hq, hqsrc⟩
    exact sweepRun_count_of_mem sweepEs acc2 src (hqsrc ▸ hsub q hq)
  · intro e he hmem hco
    have h0 : (acc2.imgCopies.map Prod.fst).count e.path = 0 := by
      rw [List.count_eq_zero]
      intro hx
      rcases List.mem_map.1 hx with ⟨q, hq, hqe⟩
      exact hmem (hqe ▸ hsub q hq)
    rw [sweepRun_count_new sweepEs acc2 e hnodup he hmem hco, h0]

/-- Witness for C9 in the shipped mode (`scanAllLabelled(true)`): a fresh
image is copied exactly once by the sweep after an empty yolo pass, and an
image the yolo annotation pass already copied (the state reached from one
processed annotation) is still copied only once in total after a sweep
that visits its path. -/
theorem sweep_dedup_witness :
    ((sweepRun RunAcc.init
        [⟨lstr "dataset/images/a.png", CopyOutcome.copied false⟩]).imgCopies.map
      Prod.fst).count (lstr "dataset/images/a.png") = 1 ∧
    ((sweepRun
        ⟨⟨0, 0, 0, 0, 0, 0, 1, [lstr "dataset/images/gun1.jpg"]⟩, [],
          [lstr "output/yolo/0.txt"],
          [(lstr "dataset/images/gun1.jpg", lstr "output/yolo/0.jpg")],
          [(2, lstr "2 0.040000 0.380000 -0.100000 0.400000")]⟩
        [⟨lstr "dataset/images/gun1.jpg", CopyOutcome.copied false⟩]).imgCopies.map
      Prod.fst).count (lstr "dataset/images/gun1.jpg") = 1 :=
  ⟨(sweep_dedup true [] [] []
      [⟨lstr "dataset/images/a.png", CopyOutcome.copied false⟩]
      RunAcc.init rfl (by decide)).2
      ⟨lstr "dataset/images/a.png", CopyOutcome.copied false⟩
      (List.mem_singleton_self _) (by decide) ⟨false, rfl⟩,
   ((sweep_dedup true gunImageWalk [] [badXmaxEntry]
      [⟨lstr "dataset/images/gun1.jpg", CopyOutcome.copied false⟩]
      ⟨⟨0, 0, 0, 0, 0, 0, 1, [lstr "dataset/images/gun1.jpg"]⟩, [],
        [lstr "output/yolo/0.txt"],
        [(lstr "dataset/images/gun1.jpg", lstr "output/yolo/0.jpg")],
        [(2, lstr "2 0.040000 0.380000 -0.100000 0.400000")]⟩
      rfl (by decide)).1
      (lstr "dataset/images/gun1.jpg") (by decide)).trans (by decide)⟩
